import Mathlib

/-!
Verification development for the `sp` string-formatting micro-library
(files `include/sp.hpp`, `include/printf.hpp`, `tests/main.cpp`).

The definitions below are a shallow embedding of the C++ source in
`include/sp.hpp` (the generation of the library that the specification's
line references point at).  Machine integers (`int32_t`) are modelled as
`Int`; the C++ code has undefined behaviour on signed overflow, so the
embedding covers exactly the executions in which the counters stay in
range, which is the case for every input considered here.  `char` values
are modelled as `Char`; the source uses the `char` value `0` as the
"unset" sentinel inside `FormatFlags`, which is kept as the character
`'\x00'`.

The `FILE*` stream backend's `fwrite` is modelled by an oracle function
`fw : Nat → List Char → Nat` stored in the output: call number `k`
writing `data` physically writes `fw k data` bytes (the source only
checks whether that count equals the requested count).  The buffer
backend is deterministic and needs no oracle.
-/

namespace sp

/-- Output sink state, mirroring the four data members of `sp::Output`
(`m_stream`, `m_buffer`, `m_size`, `m_length`) plus ghost state: for a
stream, `emitted` records the bytes physically pushed to the `FILE*` and
`calls`/`fw` drive the `fwrite` oracle; for a buffer, `buf` is the
caller's array and `pos` the cursor offset (`m_buffer - original`). -/
structure Output where
  isStream : Bool
  fw : Nat → List Char → Nat
  calls : Nat
  emitted : List Char
  buf : List Char
  pos : Nat
  sz : Nat
  length : Int

/-- Transcription of `Output::result` (sp.hpp:162-165): returns `m_length`. -/
def Output.result (o : Output) : Int :=
  o.length

/-- Overwrite `buf` starting at index `i` with the bytes of `d`
(the `std::memcpy(m_buffer, data, toCopy)` of sp.hpp:188; out-of-range
indices are dropped by `List.set`, but all reachable calls are in
bounds). -/
def memWrite (buf : List Char) (i : Nat) (d : List Char) : List Char :=
  match d with
  | [] => buf
  | c :: rest => memWrite (buf.set i c) (i + 1) rest

/-- Transcription of `Output::write(size_t, const void*)` (sp.hpp:172-195).
Nothing happens unless `m_length >= 0`.  Stream backend: `fwrite` is the
oracle; on a short write `m_length` becomes `-1`, otherwise it grows by
the byte count.  Buffer backend: `m_length` always grows by the request,
and if `m_size` is nonzero, `min(m_size - 1, bytes)` bytes are copied,
a terminating `0` is stored right after them, and cursor/capacity move. -/
def Output.write (o : Output) (data : List Char) : Output :=
  if o.length < 0 then o
  else if o.isStream then
    let written := o.fw o.calls data
    if written = data.length then
      { o with calls := o.calls + 1, emitted := o.emitted ++ data,
               length := o.length + data.length }
    else
      { o with calls := o.calls + 1, emitted := o.emitted ++ data.take written,
               length := -1 }
  else
    if o.sz ≠ 0 then
      let toCopy := min (o.sz - 1) data.length
      { o with length := o.length + data.length,
               buf := ((memWrite o.buf o.pos (data.take toCopy)).set (o.pos + toCopy) '\x00'),
               pos := o.pos + toCopy,
               sz := o.sz - toCopy }
    else { o with length := o.length + data.length }

/-- Issue a sequence of `write` calls, left to right. -/
def Output.writeAll (o : Output) (ds : List (List Char)) : Output :=
  ds.foldl Output.write o

/-- The `fwrite` oracle of a stream that always succeeds: every request
is written in full. -/
def okFw : Nat → List Char → Nat :=
  fun _ data => data.length

/-- A fresh always-succeeding stream output (models `Output(stdout)` on
a healthy stream). -/
def okStream : Output :=
  { isStream := true, fw := okFw, calls := 0, emitted := [], buf := [],
    pos := 0, sz := 0, length := 0 }

/-- A fresh buffer output of capacity `c` (models `Output(buffer, c)`,
sp.hpp:151-155, over a zero-initialised caller array). -/
def mkBuf (c : Nat) : Output :=
  { isStream := false, fw := fun _ _ => 0, calls := 0, emitted := [],
    buf := List.replicate c '\x00', pos := 0, sz := c, length := 0 }

/-- Transcription of `sp::FormatFlags` (sp.hpp:211-219).  The source uses
the `char` value `0` for "unset" `fill`/`align`/`sign`/`type` and `-1`
for unset `width`/`precision`. -/
structure FormatFlags where
  fill : Char := '\x00'
  align : Char := '\x00'
  sign : Char := '\x00'
  alternate : Bool := false
  width : Int := -1
  precision : Int := -1
  type : Char := '\x00'
deriving DecidableEq

/-- Decimal digit test `ch >= '0' && ch <= '9'` used throughout the source. -/
def isDigitC (ch : Char) : Bool :=
  '0' ≤ ch ∧ ch ≤ '9'

/-- The `isAlign` lambda of `parse_format`'s `STATE_ALIGN`
(sp.hpp:244-246): `(ch >= '<' && ch <= '>') || ch == '^'` (the range
covers `<`, `=`, `>`). -/
def isAlignC (ch : Char) : Bool :=
  ('<' ≤ ch ∧ ch ≤ '>') ∨ ch = '^'

/-- Numeric value of a decimal digit character, as `ch - '0'` in C. -/
def digitVal (ch : Char) : Int :=
  (ch.toNat : Int) - ('0'.toNat : Int)

/-- The type-character set accepted by `parse_format`'s `STATE_TYPE`
(sp.hpp:311-333).  Note that this generation accepts neither `c` nor
`n`. -/
def typeChars : List Char :=
  ['b', 'd', 'e', 'E', 'f', 'F', 'g', 'G', 'o', 's', 'x', 'X', '%']

/-!
`sp::parse_format` (sp.hpp:221-343) is a small state machine
`STATE_ALIGN → STATE_SIGN → STATE_ALTERNATE → STATE_WIDTH →
STATE_PRECISION → STATE_TYPE → STATE_DONE` where a state that decides
the current character belongs to the next state "unreads" it
(`--next`).  It is transcribed below as one function per state on the
remaining character list: an unread is a call to the next state's
function on the same list.  `none` models a `false` return.
-/

/-- `STATE_DONE` (sp.hpp:335-338): reading any further character makes
the parse fail; reaching the end of the input succeeds. -/
def parseDone (rest : List Char) (f : FormatFlags) : Option FormatFlags :=
  match rest with
  | [] => some f
  | _ :: _ => none

/-- `STATE_TYPE` (sp.hpp:311-333): one character from `typeChars` sets
`type`; anything else is unread. -/
def parseType (rest : List Char) (f : FormatFlags) : Option FormatFlags :=
  match rest with
  | [] => some f
  | ch :: rest' =>
    if typeChars.contains ch then parseDone rest' { f with type := ch }
    else parseDone rest f

/-- `STATE_PRECISION` (sp.hpp:300-309): a `.` starts the precision at 0,
then digits accumulate; the first other character is unread. -/
def parsePrecision (rest : List Char) (f : FormatFlags) : Option FormatFlags :=
  match rest with
  | [] => some f
  | ch :: rest' =>
    if f.precision < 0 ∧ ch = '.' then
      parsePrecision rest' { f with precision := 0 }
    else if 0 ≤ f.precision ∧ isDigitC ch then
      parsePrecision rest' { f with precision := f.precision * 10 + digitVal ch }
    else parseType rest f

/-- `STATE_WIDTH` (sp.hpp:284-298): digits accumulate into `width`; if
the first width digit is `0` then `fill`/`align` are set to `'0'`/`'='`
unconditionally (even when an explicit fill or align was parsed
before). -/
def parseWidth (rest : List Char) (f : FormatFlags) : Option FormatFlags :=
  match rest with
  | [] => some f
  | ch :: rest' =>
    if isDigitC ch then
      let f :=
        if f.width < 0 then
          let f := if ch = '0' then { f with fill := '0', align := '=' } else f
          { f with width := 0 }
        else f
      parseWidth rest' { f with width := f.width * 10 + digitVal ch }
    else parsePrecision rest f

/-- `STATE_ALTERNATE` (sp.hpp:275-281): a `#` sets the alternate flag;
anything else is unread. -/
def parseAlternate (rest : List Char) (f : FormatFlags) : Option FormatFlags :=
  match rest with
  | [] => some f
  | ch :: rest' =>
    if ch = '#' then parseWidth rest' { f with alternate := true }
    else parseWidth rest f

/-- `STATE_SIGN` (sp.hpp:261-273): one of `+`, `-`, space sets `sign`;
anything else is unread. -/
def parseSign (rest : List Char) (f : FormatFlags) : Option FormatFlags :=
  match rest with
  | [] => some f
  | ch :: rest' =>
    if ch = '+' ∨ ch = '-' ∨ ch = ' ' then parseAlternate rest' { f with sign := ch }
    else parseAlternate rest f

/-- `STATE_ALIGN` (sp.hpp:243-259): if the second character is an align
character, the first is the fill; else a first align character stands
alone; else the character is unread. -/
def parseAlign (rest : List Char) (f : FormatFlags) : Option FormatFlags :=
  match rest with
  | [] => some f
  | ch :: rest' =>
    match rest' with
    | c2 :: rest'' =>
      if isAlignC c2 then parseSign rest'' { f with fill := ch, align := c2 }
      else if isAlignC ch then parseSign rest' { f with align := ch }
      else parseSign (ch :: rest') f
    | [] =>
      if isAlignC ch then parseSign [] { f with align := ch }
      else parseSign [ch] f

/-- Transcription of `sp::parse_format` (sp.hpp:221-343): parse a spec
string into a `FormatFlags`, `none` on failure. -/
def parse_format (fmt : List Char) : Option FormatFlags :=
  parseAlign fmt {}

/-- The digit alphabet of `format_int` (sp.hpp:370-372): uppercase hex
for type `X`, lowercase otherwise. -/
def digitChar (upper : Bool) (n : Nat) : Char :=
  (if upper then ("0123456789ABCDEF".toList) else ("0123456789abcdef".toList)).getD n '?'

/-- The digit-emission do/while loop of `format_int` (sp.hpp:374-379):
emit `v % base`, divide, repeat while nonzero.  `fuel` bounds the
recursion; every call site passes `fuel = v`, which suffices for every
base `≥ 2` used by the source (2, 8, 10, 16). -/
def digitsCore (base : Nat) (upper : Bool) : Nat → Nat → List Char → List Char
  | 0, v, acc => digitChar upper (v % base) :: acc
  | fuel + 1, v, acc =>
    let acc' := digitChar upper (v % base) :: acc
    if v / base = 0 then acc' else digitsCore base upper fuel (v / base) acc'

/-- Base selection of `format_int` (sp.hpp:347-361). -/
def intBase (f : FormatFlags) : Nat :=
  if f.type = 'b' then 2
  else if f.type = 'o' then 8
  else if f.type = 'x' ∨ f.type = 'X' then 16
  else 10

/-- The digit buffer built by `format_int` (sp.hpp:363-400): the digits
of `value` in the selected base, with the alternate-form `0b`/`0o`/`0`
+type character pushed in front when requested.  This whole list is
written with one `output.write(ndigits, digits)` call. -/
def intContent (f : FormatFlags) (value : Nat) : List Char :=
  let base := intBase f
  let ds := digitsCore base (f.type = 'X') value value []
  if f.alternate then
    if base = 2 then '0' :: 'b' :: ds
    else if base = 8 then '0' :: 'o' :: ds
    else if base = 16 then '0' :: f.type :: ds
    else ds
  else ds

/-- Sign-character selection shared by the renderers (sp.hpp:402-409):
`-` for negatives, else the `+`/space sign flag, else unset (`0`). -/
def signChar (f : FormatFlags) (isNegative : Bool) : Char :=
  if isNegative then '-'
  else if f.sign = '+' ∨ f.sign = ' ' then f.sign
  else '\x00'

/-- Leading/trailing padding computation shared by the renderers
(sp.hpp:411-434): `width = max(flags.width, nchars)` and then the
alignment split.  All divisions are on nonnegative values, where Lean's
flooring `Int` division agrees with C's truncating division; the
`& 1` parity correction is `emod 2`. -/
def padSplit (align : Char) (flagWidth nchars : Int) : Int × Int :=
  let width := max flagWidth nchars
  if align = '^' then
    let lead := (width / 2) - ((nchars + 1) / 2) + (width - nchars - 1).emod 2
    let tail := ((width + 1) / 2) - (nchars / 2) - (width - nchars - 1).emod 2
    (lead, tail)
  else if align = '<' then (0, width - nchars)
  else (width - nchars, 0)

/-- Fill-character defaulting (`flags.fill ? flags.fill : ' '`,
sp.hpp:442). -/
def fillChar (f : FormatFlags) : Char :=
  if f.fill ≠ '\x00' then f.fill else ' '

/-- The sequence of `output.write` calls performed by `format_int`
(sp.hpp:436-461), in source order: the sign before the padding when the
alignment is `=`, the leading fill characters one by one, the sign
after the padding for every other alignment, the digit buffer in one
call, then the trailing fill characters.  The `while (leadSpace--)`
loops of the source run `max 0` times here (`Int.toNat`); the counts
are nonnegative in every reachable call. -/
def intWrites (f : FormatFlags) (isNegative : Bool) (value : Nat) : List (List Char) :=
  let content := intContent f value
  let sign := signChar f isNegative
  let hasSign := sign ≠ '\x00'
  let nchars : Int := (content.length : Int) + (if hasSign then 1 else 0)
  let (lead, tail) := padSplit f.align f.width nchars
  let fill := fillChar f
  (if hasSign ∧ f.align = '=' then [[sign]] else [])
    ++ List.replicate lead.toNat [fill]
    ++ (if hasSign ∧ f.align ≠ '=' then [[sign]] else [])
    ++ [content]
    ++ List.replicate tail.toNat [fill]

/-- Transcription of `sp::format_int` (sp.hpp:345-462): performs the
`intWrites` write sequence and returns `true`. -/
def format_int (o : Output) (f : FormatFlags) (isNegative : Bool) (value : Nat) : Bool × Output :=
  (true, o.writeAll (intWrites f isNegative value))

/-- The truncated character count of `format_string` (sp.hpp:584-589):
the string length, clamped to the precision when one is set. -/
def strNChars (f : FormatFlags) (s : List Char) : Int :=
  if 0 ≤ f.precision then min f.precision (s.length : Int) else (s.length : Int)

/-- The sequence of `output.write` calls performed by `format_string`
(sp.hpp:591-629): leading fill, the (possibly truncated) string in one
call, trailing fill.  Strings default to left alignment; `>` and `^`
are the only right/centre cases. -/
def strWrites (f : FormatFlags) (s : List Char) : List (List Char) :=
  let nchars := strNChars f s
  let width := max f.width nchars
  let (lead, tail) :=
    if f.align = '^' then
      ((width / 2) - ((nchars + 1) / 2) + (width - nchars - 1).emod 2,
       ((width + 1) / 2) - (nchars / 2) - (width - nchars - 1).emod 2)
    else if f.align = '>' then (width - nchars, 0)
    else (0, width - nchars)
  let fill := fillChar f
  List.replicate lead.toNat [fill]
    ++ [s.take nchars.toNat]
    ++ List.replicate tail.toNat [fill]

/-- Transcription of `sp::format_string` (sp.hpp:576-630): parse the
spec, then perform the `strWrites` write sequence. -/
def format_string (o : Output) (spec : List Char) (s : List Char) : Bool × Output :=
  match parse_format spec with
  | none => (false, o)
  | some f => (true, o.writeAll (strWrites f s))

/-- The run-time argument types the embedding needs: a signed integer
(the `long long` overload of `format_value`, sp.hpp:858-870), a string
(the `const char[]` overload, sp.hpp:880-883), and `sp::DummyArg`
(sp.hpp:632-638), whose `format_value` always returns `false` — the
"no renderer matches this run-time type" case. -/
inductive Arg
  | int (v : Int)
  | str (s : List Char)
  | dummy
deriving DecidableEq

/-- The unsigned magnitude computed by the `long long` `format_value`
(sp.hpp:862-864): `uint64_t(value)` for nonnegative values and for
`LLONG_MIN` (whose two's-complement bit pattern is `2^63`),
`uint64_t(-value)` otherwise. -/
def intAbs (v : Int) : Nat :=
  if 0 ≤ v then v.toNat
  else if v = -(2 ^ 63) then 2 ^ 63
  else (-v).toNat

/-- The write script of one `format_value` dispatch: `none` models a
`false` return (parse failure or `DummyArg`), `some ds` the sequence of
`output.write` calls the renderer performs.  The integer branch is
`parse_format(fmt, &flags) && format_int(output, flags, value < 0, abs)`
(sp.hpp:858-870); the string branch is `format_string` (sp.hpp:880-883). -/
def valueScript (spec : List Char) : Arg → Option (List (List Char))
  | .int v => (parse_format spec).map (fun f => intWrites f (decide (v < 0)) (intAbs v))
  | .str s => (parse_format spec).map (fun f => strWrites f s)
  | .dummy => none

/-- Transcription of `sp::format_value` dispatched on the argument's
run-time type: returns the renderer's success flag and the output after
its writes (the output is untouched exactly when the script is `none`). -/
def format_value (o : Output) (spec : List Char) (a : Arg) : Bool × Output :=
  match valueScript spec a with
  | none => (false, o)
  | some ds => (true, o.writeAll ds)

/-- The argument-index recursion of `sp::format_index` (sp.hpp:640-653):
walk the argument pack decrementing the index; an exhausted pack returns
`false` (argument index out of range), index `0` dispatches to
`format_value`. -/
def indexScript (spec : List Char) : Int → List Arg → Option (List (List Char))
  | _, [] => none
  | i, a :: rest => if i = 0 then valueScript spec a else indexScript spec (i - 1) rest

/-- Transcription of `sp::format_index` (sp.hpp:640-653). -/
def format_index (o : Output) (spec : List Char) (i : Int) (args : List Arg) : Bool × Output :=
  match indexScript spec i args with
  | none => (false, o)
  | some ds => (true, o.writeAll ds)

/-- The five scanner states of the template engine (sp.hpp:666-672). -/
inductive FState
  | opener
  | index
  | marker
  | flags
  | closer
deriving DecidableEq

/-- Scanner state of one `sp::format` call (sp.hpp:663-770): the
character cursor `next`, the pending-literal start `start`, the spec
start `formatStart`, the auto-increment counter `prev`, the current
argument index `idx` (all positions are offsets into the template), the
control state, and the output. -/
structure MState where
  st : FState
  next : Nat
  start : Nat
  formatStart : Option Nat
  prev : Int
  idx : Int
  out : Output

/-- The template slice `[a, b)`, as passed to `output.write(b - a, a)`. -/
def slice (fmt : List Char) (a b : Nat) : List Char :=
  (fmt.drop a).take (b - a)

/-- The spec `StringView` built in `STATE_CLOSER` (sp.hpp:750-752):
`[formatStart, ptr)` when a spec was started, empty otherwise.  Here
`s.next` is the position of the closing character (`ptr`). -/
def closerSpec (fmt : List Char) (s : MState) : List Char :=
  match s.formatStart with
  | some fs => slice fmt fs s.next
  | none => []

/-- One iteration of the scanner loop of `sp::format` (sp.hpp:684-761).
`none` means the loop condition `next < term` failed.  The source reads
`ch = *next++` and a state may "unread" it with `--next`; here an unread
simply leaves `next` unchanged. -/
def step (fmt : List Char) (args : List Arg) (s : MState) : Option MState :=
  match fmt[s.next]? with
  | none => none
  | some ch =>
    let ptr := s.next
    let nx := ptr + 1
    some (match s.st with
    | .opener =>
      if ch = '\x7b' then
        let o := s.out.write (slice fmt s.start ptr)
        match fmt[nx]? with
        | some la =>
          if la ≠ '\x7b' then
            { s with out := o, next := nx, idx := -1, start := ptr,
                     formatStart := none, st := .index }
          else { s with out := o, next := nx + 1, start := nx }
        | none => { s with out := o, next := nx }
      else if ch = '\x7d' then
        let o := s.out.write (slice fmt s.start nx)
        if fmt[nx]? = some '\x7d' then
          { s with out := o, next := nx + 1, start := nx + 1 }
        else { s with out := o, next := nx, start := nx }
      else { s with next := nx }
    | .index =>
      if isDigitC ch then
        { s with next := nx,
                 idx := if s.idx < 0 then digitVal ch else s.idx * 10 + digitVal ch }
      else
        let i := if s.idx < 0 then s.prev + 1 else s.idx
        { s with idx := i, prev := i, st := .marker }
    | .marker =>
      if ch = ':' then { s with next := nx, st := .flags }
      else { s with st := .closer }
    | .flags =>
      let fs := match s.formatStart with
        | none => some ptr
        | some x => some x
      if ch = '\x7d' ∨ ch = '\x7b' then { s with formatStart := fs, st := .closer }
      else { s with formatStart := fs, next := nx }
    | .closer =>
      if ch = '\x7d' then
        match format_index s.out (closerSpec fmt s) s.idx args with
        | (true, o) => { s with out := o, next := nx, start := nx, st := .opener }
        | (false, o) => { s with out := o, next := nx, st := .opener }
      else { s with next := nx, st := .opener })

/-- Run the scanner for at most `fuel` iterations (the loop of
sp.hpp:684-761 runs until `next < term` fails; `5 * fmt.length + 5`
fuel provably reaches that point, see `step_runFuel_none`). -/
def runFuel (fmt : List Char) (args : List Arg) : Nat → MState → MState
  | 0, s => s
  | fuel + 1, s =>
    match step fmt args s with
    | none => s
    | some s' => runFuel fmt args fuel s'

/-- The scanner's initial state (sp.hpp:674-682): cursor and literal
start at 0, no spec, auto-increment counter `prev = -1`, index `-1`. -/
def initState (o : Output) : MState :=
  { st := .opener, next := 0, start := 0, formatStart := none,
    prev := -1, idx := -1, out := o }

/-- Transcription of `sp::format(Output&, fmt, args...)`
(sp.hpp:663-770): record `result()` before, run the scanner to
completion, flush the remaining literal `[start, term)` when nonempty,
and return the written `Output` together with the `int32_t` result
`after < 0 ? after : after - before`. -/
def format (o : Output) (fmt : List Char) (args : List Arg) : Output × Int :=
  let before := o.result
  let s := runFuel fmt args (5 * fmt.length + 5) (initState o)
  let out :=
    if s.start ≠ fmt.length then s.out.write (slice fmt s.start fmt.length)
    else s.out
  let after := out.result
  (out, if after < 0 then after else after - before)

/-- The exact byte sequence a `format` call emits on a healthy stream
output (every `fwrite` succeeds). -/
def runEmit (fmt : List Char) (args : List Arg) : List Char :=
  (format okStream fmt args).1.emitted

/-- The `int32_t` return value of a `format` call on a healthy stream
output. -/
def runRet (fmt : List Char) (args : List Arg) : Int :=
  (format okStream fmt args).2

/-- Total requested length of a sequence of writes. -/
def sumLens : List (List Char) → Int
  | [] => 0
  | d :: ds => (d.length : Int) + sumLens ds

/-- A healthy stream output: stream backend, the always-succeeding
`fwrite` oracle, and no error recorded. -/
def OkStream (o : Output) : Prop :=
  o.isStream = true ∧ o.fw = okFw ∧ 0 ≤ o.length

/-- The reachable-state invariant of a buffer-backed output of capacity
`c ≥ 1`: buffer backend, the caller array has `c` cells, cursor plus
remaining capacity equals `c`, at least one byte of capacity remains
(the source's `toCopy <= m_size - 1` keeps `m_size` positive), and the
logical length is nonnegative. -/
def BufInv (c : Nat) (o : Output) : Prop :=
  o.isStream = false ∧ o.buf.length = c ∧ o.pos + o.sz = c ∧ 1 ≤ o.sz ∧ 0 ≤ o.length

/-- Replace the output component of a scanner state (the scanner's
control fields are untouched). -/
def MState.withOut (s : MState) (o : Output) : MState :=
  { s with out := o }

/-- Rank of a scanner state: every `--next` transition of `sp::format`
moves to a strictly higher rank. -/
def rank : FState → Nat
  | .opener => 0
  | .index => 1
  | .marker => 2
  | .flags => 3
  | .closer => 4

/-- Termination measure of the scanner loop: strictly decreases on
every `step`. -/
def mea (fmt : List Char) (s : MState) : Nat :=
  5 * (fmt.length - s.next) + (5 - rank s.st)

/-! Basic facts about the output sink. -/

theorem write_of_neg (o : Output) (d : List Char) (h : o.length < 0) :
    o.write d = o := by
  unfold Output.write
  rw [if_pos h]

theorem writeAll_nil (o : Output) : o.writeAll [] = o :=
  rfl

theorem writeAll_cons (o : Output) (d : List Char) (ds : List (List Char)) :
    o.writeAll (d :: ds) = (o.write d).writeAll ds :=
  rfl

theorem writeAll_append (o : Output) (a b : List (List Char)) :
    o.writeAll (a ++ b) = (o.writeAll a).writeAll b := by
  unfold Output.writeAll
  rw [List.foldl_append]

theorem writeAll_of_neg (o : Output) (ds : List (List Char)) (h : o.length < 0) :
    o.writeAll ds = o := by
  induction ds with
  | nil => rfl
  | cons d ds ih => rw [writeAll_cons, write_of_neg o d h, ih]

theorem sumLens_nonneg (ds : List (List Char)) : 0 ≤ sumLens ds := by
  induction ds with
  | nil => simp [sumLens]
  | cons d ds ih => simp only [sumLens]; positivity

theorem memWrite_length (d : List Char) (buf : List Char) (i : Nat) :
    (memWrite buf i d).length = buf.length := by
  induction d generalizing buf i with
  | nil => rfl
  | cons c rest ih => simp [memWrite, ih]

theorem get?_set_self (l : List Char) (i : Nat) (a : Char) (h : i < l.length) :
    (l.set i a).get? i = some a :=
  List.get?_set_eq_of_lt a h

theorem write_okStream (o : Output) (d : List Char) (h : OkStream o) :
    OkStream (o.write d) ∧ (o.write d).length = o.length + d.length ∧
      (o.write d).emitted = o.emitted ++ d := by
  obtain ⟨hs, hf, hl⟩ := h
  have h0 : ¬ o.length < 0 := by omega
  unfold OkStream
  simp only [Output.write, if_neg h0, hs, if_true, hf, okFw, if_pos rfl]
  refine ⟨⟨trivial, trivial, ?_⟩, trivial, trivial⟩
  omega

theorem writeAll_okStream (ds : List (List Char)) (o : Output) (h : OkStream o) :
    OkStream (o.writeAll ds) ∧ (o.writeAll ds).length = o.length + sumLens ds := by
  induction ds generalizing o with
  | nil => simpa [writeAll_nil, sumLens] using h
  | cons d ds ih =>
    obtain ⟨h1, h2, _⟩ := write_okStream o d h
    obtain ⟨h3, h4⟩ := ih (o.write d) h1
    rw [writeAll_cons]
    refine ⟨h3, ?_⟩
    rw [h4, h2]
    simp only [sumLens]
    ring

theorem write_nonstream (o : Output) (d : List Char) (hs : o.isStream = false)
    (hl : 0 ≤ o.length) :
    (o.write d).isStream = false ∧ (o.write d).length = o.length + d.length := by
  have h0 : ¬ o.length < 0 := by omega
  by_cases hz : o.sz ≠ 0 <;>
    simp [Output.write, if_neg h0, hs, hz]

theorem writeAll_nonstream (ds : List (List Char)) (o : Output) (hs : o.isStream = false)
    (hl : 0 ≤ o.length) :
    (o.writeAll ds).isStream = false ∧ (o.writeAll ds).length = o.length + sumLens ds := by
  induction ds generalizing o with
  | nil => simp [writeAll_nil, hs, sumLens]
  | cons d ds ih =>
    obtain ⟨h1, h2⟩ := write_nonstream o d hs hl
    have hl' : 0 ≤ (o.write d).length := by
      have : (0 : Int) ≤ (d.length : Int) := by positivity
      omega
    obtain ⟨h3, h4⟩ := ih (o.write d) h1 hl'
    rw [writeAll_cons]
    refine ⟨h3, ?_⟩
    rw [h4, h2]
    simp [sumLens]
    ring

theorem write_bufInv (c : Nat) (o : Output) (d : List Char) (h : BufInv c o) :
    BufInv c (o.write d) ∧ (o.write d).length = o.length + d.length ∧
      (o.write d).buf.get? ((o.write d).pos) = some '\x00' := by
  obtain ⟨hs, hb, hpz, hsz, hl⟩ := h
  have h0 : ¬ o.length < 0 := by omega
  have hz : o.sz ≠ 0 := by omega
  have htc : min (o.sz - 1) d.length ≤ o.sz - 1 := min_le_left _ _
  unfold BufInv
  simp only [Output.write, if_neg h0, hs, Bool.false_eq_true, if_false, if_pos hz]
  have hlen : ((memWrite o.buf o.pos (d.take (min (o.sz - 1) d.length))).set
      (o.pos + min (o.sz - 1) d.length) '\x00').length = c := by
    rw [List.length_set, memWrite_length, hb]
  refine ⟨⟨trivial, hlen, by omega, by omega, by omega⟩, ⟨trivial, ?_⟩⟩
  exact get?_set_self _ _ _ (by rw [memWrite_length, hb]; omega)

theorem writeAll_bufInv (c : Nat) (ds : List (List Char)) (o : Output) (h : BufInv c o) :
    BufInv c (o.writeAll ds) ∧ (o.writeAll ds).length = o.length + sumLens ds ∧
      (ds ≠ [] → (o.writeAll ds).buf.get? ((o.writeAll ds).pos) = some '\x00') := by
  induction ds generalizing o with
  | nil => simp [writeAll_nil, h, sumLens]
  | cons d ds ih =>
    obtain ⟨h1, h2, h3⟩ := write_bufInv c o d h
    obtain ⟨h4, h5, h6⟩ := ih (o.write d) h1
    rw [writeAll_cons]
    refine ⟨h4, ?_, fun _ => ?_⟩
    · rw [h5, h2]; simp [sumLens]; ring
    · cases ds with
      | nil => simpa [writeAll_nil] using h3
      | cons e es => exact h6 (by simp)

/-! The scanner's control flow does not depend on the output component:
each `step` applies the same control transition and the same script of
`write` calls no matter which output is plugged in. -/

theorem step_sim (fmt : List Char) (args : List Arg) (s : MState) :
    (step fmt args s = none ∧ ∀ o2 : Output, step fmt args (s.withOut o2) = none) ∨
    (∃ s' D, step fmt args s = some s' ∧ s'.out = s.out.writeAll D ∧
      ∀ o2 : Output, step fmt args (s.withOut o2) = some (s'.withOut (o2.writeAll D))) := by
  obtain ⟨st, nx0, st0, fs0, pv0, ix0, o1⟩ := s
  cases h : fmt[nx0]? with
  | none =>
    left
    exact ⟨by simp [step, h], fun o2 => by simp [step, MState.withOut, h]⟩
  | some ch =>
    right
    cases st with
    | opener =>
      by_cases hb : ch = '\x7b'
      · cases hla : fmt[nx0 + 1]? with
        | none =>
          refine ⟨⟨.opener, nx0 + 1, st0, fs0, pv0, ix0,
              o1.write (slice fmt st0 nx0)⟩, [slice fmt st0 nx0], ?_, ?_, fun o2 => ?_⟩ <;>
            simp [step, MState.withOut, h, hla, hb, writeAll_cons, writeAll_nil]
        | some la =>
          by_cases hla2 : la = '\x7b'
          · refine ⟨⟨.opener, nx0 + 1 + 1, nx0 + 1, fs0, pv0, ix0,
                o1.write (slice fmt st0 nx0)⟩, [slice fmt st0 nx0], ?_, ?_, fun o2 => ?_⟩ <;>
              simp [step, MState.withOut, h, hla, hb, hla2, writeAll_cons, writeAll_nil]
          · refine ⟨⟨.index, nx0 + 1, nx0, none, pv0, -1,
                o1.write (slice fmt st0 nx0)⟩, [slice fmt st0 nx0], ?_, ?_, fun o2 => ?_⟩ <;>
              simp [step, MState.withOut, h, hla, hb, hla2, writeAll_cons, writeAll_nil]
      · by_cases hc : ch = '\x7d'
        · by_cases hla : fmt[nx0 + 1]? = some '\x7d'
          · refine ⟨⟨.opener, nx0 + 1 + 1, nx0 + 1 + 1, fs0, pv0, ix0,
                o1.write (slice fmt st0 (nx0 + 1))⟩, [slice fmt st0 (nx0 + 1)], ?_, ?_, fun o2 => ?_⟩ <;>
              simp [step, MState.withOut, h, hb, hc, hla, writeAll_cons, writeAll_nil]
          · refine ⟨⟨.opener, nx0 + 1, nx0 + 1, fs0, pv0, ix0,
                o1.write (slice fmt st0 (nx0 + 1))⟩, [slice fmt st0 (nx0 + 1)], ?_, ?_, fun o2 => ?_⟩ <;>
              simp [step, MState.withOut, h, hb, hc, hla, writeAll_cons, writeAll_nil]
        · refine ⟨⟨.opener, nx0 + 1, st0, fs0, pv0, ix0, o1⟩, [], ?_, ?_, fun o2 => ?_⟩ <;>
            simp [step, MState.withOut, h, hb, hc, writeAll_nil]
    | index =>
      by_cases hd : isDigitC ch
      · refine ⟨⟨.index, nx0 + 1, st0, fs0, pv0,
            if ix0 < 0 then digitVal ch else ix0 * 10 + digitVal ch, o1⟩, [], ?_, ?_, fun o2 => ?_⟩ <;>
          simp [step, MState.withOut, h, hd, writeAll_nil]
      · refine ⟨⟨.marker, nx0, st0, fs0, if ix0 < 0 then pv0 + 1 else ix0,
            if ix0 < 0 then pv0 + 1 else ix0, o1⟩, [], ?_, ?_, fun o2 => ?_⟩ <;>
          simp [step, MState.withOut, h, hd, writeAll_nil]
    | marker =>
      by_cases hm : ch = ':'
      · refine ⟨⟨.flags, nx0 + 1, st0, fs0, pv0, ix0, o1⟩, [], ?_, ?_, fun o2 => ?_⟩ <;>
          simp [step, MState.withOut, h, hm, writeAll_nil]
      · refine ⟨⟨.closer, nx0, st0, fs0, pv0, ix0, o1⟩, [], ?_, ?_, fun o2 => ?_⟩ <;>
          simp [step, MState.withOut, h, hm, writeAll_nil]
    | flags =>
      by_cases hf : ch = '\x7d' ∨ ch = '\x7b'
      · refine ⟨⟨.closer, nx0, st0,
            (match fs0 with | none => some nx0 | some x => some x), pv0, ix0, o1⟩, [],
            ?_, ?_, fun o2 => ?_⟩ <;>
          simp [step, MState.withOut, h, hf, writeAll_nil]
      · refine ⟨⟨.flags, nx0 + 1, st0,
            (match fs0 with | none => some nx0 | some x => some x), pv0, ix0, o1⟩, [],
            ?_, ?_, fun o2 => ?_⟩ <;>
          simp [step, MState.withOut, h, hf, writeAll_nil]
    | closer =>
      by_cases hc : ch = '\x7d'
      · cases his : indexScript (closerSpec fmt ⟨.closer, nx0, st0, fs0, pv0, ix0, o1⟩) ix0 args with
        | none =>
          have his2 : ∀ o2 : Output,
              indexScript (closerSpec fmt (MState.withOut ⟨.closer, nx0, st0, fs0, pv0, ix0, o1⟩ o2)) ix0 args = none := by
            intro o2
            simpa [closerSpec, MState.withOut] using his
          refine ⟨⟨.opener, nx0 + 1, st0, fs0, pv0, ix0, o1⟩, [], ?_, ?_, fun o2 => ?_⟩ <;>
            simp [step, MState.withOut, format_index, h, hc, his, his2 _, writeAll_nil] <;>
            simp [closerSpec] at his ⊢ <;> simp [his]
        | some ds =>
          have his2 : ∀ o2 : Output,
              indexScript (closerSpec fmt (MState.withOut ⟨.closer, nx0, st0, fs0, pv0, ix0, o1⟩ o2)) ix0 args = some ds := by
            intro o2
            simpa [closerSpec, MState.withOut] using his
          refine ⟨⟨.opener, nx0 + 1, nx0 + 1, fs0, pv0, ix0, o1.writeAll ds⟩, ds, ?_, ?_, fun o2 => ?_⟩ <;>
            simp [step, MState.withOut, format_index, h, hc, his, his2 _] <;>
            simp [closerSpec] at his ⊢ <;> simp [his]
      · refine ⟨⟨.opener, nx0 + 1, st0, fs0, pv0, ix0, o1⟩, [], ?_, ?_, fun o2 => ?_⟩ <;>
          simp [step, MState.withOut, h, hc, writeAll_nil]

theorem getElem?_some_lt {l : List Char} {i : Nat} {a : Char} (h : l[i]? = some a) :
    i < l.length := by
  rw [List.getElem?_eq_some] at h
  exact h.1

theorem runFuel_sim (fmt : List Char) (args : List Arg) (n : Nat) (s : MState) :
    ∃ D, (runFuel fmt args n s).out = s.out.writeAll D ∧
      ∀ o2 : Output,
        runFuel fmt args n (s.withOut o2) = (runFuel fmt args n s).withOut (o2.writeAll D) := by
  induction n generalizing s with
  | zero =>
    exact ⟨[], by simp [runFuel, writeAll_nil], fun o2 => by simp [runFuel, writeAll_nil]⟩
  | succ n ih =>
    rcases step_sim fmt args s with ⟨h1, h2⟩ | ⟨s', D1, h1, h2, h3⟩
    · refine ⟨[], ?_, fun o2 => ?_⟩
      · simp [runFuel, h1, writeAll_nil]
      · simp [runFuel, h1, h2 o2, writeAll_nil]
    · obtain ⟨D2, ih1, ih2⟩ := ih s'
      refine ⟨D1 ++ D2, ?_, fun o2 => ?_⟩
      · simp only [runFuel, h1]
        rw [ih1, h2, writeAll_append]
      · simp only [runFuel, h1, h3 o2]
        rw [ih2 (o2.writeAll D1), writeAll_append]

theorem step_none_iff (fmt : List Char) (args : List Arg) (s : MState) :
    step fmt args s = none ↔ fmt[s.next]? = none := by
  cases h : fmt[s.next]? with
  | none => simp [step, h]
  | some ch => simp [step, h]

theorem rank_le (st : FState) : rank st ≤ 4 := by
  cases st <;> simp [rank]

theorem step_mea (fmt : List Char) (args : List Arg) (s s' : MState)
    (hstep : step fmt args s = some s') : mea fmt s' < mea fmt s := by
  obtain ⟨st, nx0, st0, fs0, pv0, ix0, o1⟩ := s
  cases h : fmt[nx0]? with
  | none => simp [step, h] at hstep
  | some ch =>
    have hlt : nx0 < fmt.length := getElem?_some_lt h
    cases st with
    | opener =>
      by_cases hb : ch = '\x7b'
      · cases hla : fmt[nx0 + 1]? with
        | none =>
          simp [step, h, hla, hb] at hstep
          subst hstep
          dsimp only [mea, rank]
          omega
        | some la =>
          have hlt2 : nx0 + 1 < fmt.length := getElem?_some_lt hla
          by_cases hla2 : la = '\x7b'
          · simp [step, h, hla, hb, hla2] at hstep
            subst hstep
            simp [mea, rank]
            omega
          · simp [step, h, hla, hb, hla2] at hstep
            subst hstep
            simp [mea, rank]
            omega
      · by_cases hc : ch = '\x7d'
        · by_cases hla : fmt[nx0 + 1]? = some '\x7d'
          · have hlt2 : nx0 + 1 < fmt.length := getElem?_some_lt hla
            simp [step, h, hb, hc, hla] at hstep
            subst hstep
            simp [mea, rank]
            omega
          · simp [step, h, hb, hc, hla] at hstep
            subst hstep
            simp [mea, rank]
            omega
        · simp [step, h, hb, hc] at hstep
          subst hstep
          dsimp only [mea, rank]
          omega
    | index =>
      by_cases hd : isDigitC ch
      · simp [step, h, hd] at hstep
        subst hstep
        dsimp only [mea, rank]
        omega
      · simp [step, h, hd] at hstep
        subst hstep
        dsimp only [mea, rank]
        omega
    | marker =>
      by_cases hm : ch = ':'
      · simp [step, h, hm] at hstep
        subst hstep
        dsimp only [mea, rank]
        omega
      · simp [step, h, hm] at hstep
        subst hstep
        dsimp only [mea, rank]
        omega
    | flags =>
      by_cases hf : ch = '\x7d' ∨ ch = '\x7b'
      · simp [step, h, hf] at hstep
        subst hstep
        dsimp only [mea, rank]
        omega
      · simp [step, h, hf] at hstep
        subst hstep
        dsimp only [mea, rank]
        omega
    | closer =>
      by_cases hc : ch = '\x7d'
      · cases his : indexScript (closerSpec fmt ⟨.closer, nx0, st0, fs0, pv0, ix0, o1⟩) ix0 args with
        | none =>
          simp [step, h, hc, format_index, his] at hstep
          subst hstep
          dsimp only [mea, rank]
          omega
        | some ds =>
          simp [step, h, hc, format_index, his] at hstep
          subst hstep
          dsimp only [mea, rank]
          omega
      · simp [step, h, hc] at hstep
        subst hstep
        dsimp only [mea, rank]
        omega

theorem runFuel_stops (fmt : List Char) (args : List Arg) (n : Nat) (s : MState)
    (h : mea fmt s ≤ n) : step fmt args (runFuel fmt args n s) = none := by
  induction n generalizing s with
  | zero =>
    have := rank_le s.st
    exfalso
    unfold mea at h
    omega
  | succ n ih =>
    cases hstep : step fmt args s with
    | none => simpa [runFuel, hstep] using hstep
    | some s' =>
      have hm := step_mea fmt args s s' hstep
      simp only [runFuel, hstep]
      exact ih s' (by omega)

/-- The fuel `5 * fmt.length + 5` given to the scanner in `format` is
enough: the loop provably reaches its `next < term` exit condition, so
the fuel-based `runFuel` is a faithful rendering of the source's
`while` loop. -/
theorem step_runFuel_none (fmt : List Char) (args : List Arg) (o : Output) :
    step fmt args (runFuel fmt args (5 * fmt.length + 5) (initState o)) = none := by
  apply runFuel_stops
  dsimp only [mea, initState, rank]
  omega

theorem format_script (fmt : List Char) (args : List Arg) :
    ∃ D, ∀ o : Output,
      format o fmt args =
        (o.writeAll D,
         if (o.writeAll D).length < 0 then (o.writeAll D).length
         else (o.writeAll D).length - o.length) := by
  obtain ⟨D1, hout, hall⟩ :=
    runFuel_sim fmt args (5 * fmt.length + 5) (initState okStream)
  by_cases hflush :
      (runFuel fmt args (5 * fmt.length + 5) (initState okStream)).start ≠ fmt.length
  · refine ⟨D1 ++ [slice fmt
        (runFuel fmt args (5 * fmt.length + 5) (initState okStream)).start fmt.length],
      fun o => ?_⟩
    have hinit : initState o = (initState okStream).withOut o := rfl
    unfold format
    rw [hinit, hall o]
    simp only [MState.withOut, hflush, if_pos, Output.result]
    rw [writeAll_append, writeAll_cons, writeAll_nil]
    simp [hflush]
  · refine ⟨D1, fun o => ?_⟩
    have hinit : initState o = (initState okStream).withOut o := rfl
    unfold format
    rw [hinit, hall o]
    simp only [MState.withOut, Output.result]
    simp [hflush]

end sp

/-!
Claim theorems.  Each theorem settles one claim of the specification
against the embedding above.
-/

/-- C1 (code bug): the spec, and the repository's own tests
(tests/main.cpp:140-155), require a `\x7b` inside a placeholder's spec to
open a nested placeholder that is recursively resolved before the spec
is parsed, with `format("\x7b1:.\x7b0\x7d\x7d", 3, "ooga")` printing `"oog"`.
The code in sp.hpp has no such recursion: `STATE_FLAGS` (sp.hpp:736-746)
treats `\x7b` exactly like `\x7d` — it moves to `STATE_CLOSER`, which sees
the `\x7b`, dispatches nothing, and drops back to `STATE_OPENER`, so the
placeholder is abandoned and its text passes through (with the trailing
`\x7d\x7d` collapsed by the escape rule).  This theorem evaluates the
embedding at the two failing inputs: the first prints `"\x7b1:.\x7b0\x7d"`,
not `"oog"`; the 4-level test prints `"\x7b0:\x7b0:\x7b0:\x7b0:Hello\x7d\x7d"`,
not `"Hello"`. -/
theorem claim_C1_no_nested_spec_resolution :
    sp.runEmit ("\x7b1:.\x7b0\x7d\x7d".toList) [sp.Arg.int 3, sp.Arg.str ("ooga".toList)] =
      ("\x7b1:.\x7b0\x7d".toList) ∧
    sp.runEmit ("\x7b0:\x7b0:\x7b0:\x7b0:\x7b1\x7d\x7d\x7d\x7d\x7d".toList)
        [sp.Arg.dummy, sp.Arg.str ("Hello".toList)] =
      ("\x7b0:\x7b0:\x7b0:\x7b0:Hello\x7d\x7d".toList) := by
  decide

/-- C2 (confirmed): when a placeholder's dispatch fails — argument index
out of range, unparseable spec, or no renderer for the argument's
run-time type, i.e. exactly when `indexScript` is `none` — then (1)
`format_index` performs no write at all (no partial output); (2) the
scanner `step` at the closing `\x7d` leaves `start` (and the output)
untouched and returns to `STATE_OPENER`, so the whole placeholder text
stays pending and is later flushed verbatim while scanning continues;
(3) the call's result on a healthy sink is never `-1` (`-1` arises only
from sink write failure); (4)-(6) end-to-end runs for the three failure
kinds emit the placeholder text byte-for-byte and keep formatting the
rest of the template. -/
theorem claim_C2_dispatch_failure_passthrough :
    (∀ (o : sp.Output) (spec : List Char) (i : Int) (args : List sp.Arg),
        sp.indexScript spec i args = none →
        sp.format_index o spec i args = (false, o)) ∧
    (∀ (fmt : List Char) (args : List sp.Arg) (s : sp.MState),
        fmt[s.next]? = some '\x7d' →
        s.st = sp.FState.closer →
        sp.indexScript (sp.closerSpec fmt s) s.idx args = none →
        sp.step fmt args s = some { s with next := s.next + 1, st := sp.FState.opener }) ∧
    (∀ (fmt : List Char) (args : List sp.Arg), 0 ≤ sp.runRet fmt args) ∧
    sp.runEmit ("\x7b5\x7dX\x7b0\x7d".toList) [sp.Arg.int 7] = ("\x7b5\x7dX7".toList) ∧
    sp.runEmit ("\x7b0:_\x7d".toList) [sp.Arg.int 7] = ("\x7b0:_\x7d".toList) ∧
    sp.runEmit ("\x7b0\x7d".toList) [sp.Arg.dummy] = ("\x7b0\x7d".toList) := by
  refine ⟨?_, ?_, ?_, by decide, by decide, by decide⟩
  · intro o spec i args h
    simp [sp.format_index, h]
  · intro fmt args s h1 h2 h3
    obtain ⟨st, nx0, st0, fs0, pv0, ix0, o1⟩ := s
    subst h2
    simp only [sp.step, h1, sp.format_index, h3]
    rfl
  · intro fmt args
    obtain ⟨D, hD⟩ := sp.format_script fmt args
    have hok : sp.OkStream sp.okStream := ⟨rfl, rfl, le_refl 0⟩
    obtain ⟨-, hlen⟩ := sp.writeAll_okStream D sp.okStream hok
    have hnn := sp.sumLens_nonneg D
    unfold sp.runRet
    rw [hD sp.okStream]
    have h0 : (sp.okStream.writeAll D).length = sp.sumLens D := by
      rw [hlen]
      simp [sp.okStream]
    rw [h0, if_neg (by omega : ¬ sp.sumLens D < 0)]
    have h1 : sp.okStream.length = 0 := rfl
    omega

/-- Witness for C2 at concrete inputs: an out-of-range index 5 against a
one-element argument list makes `format_index` fail without output, the
closer step passes through, and the result of the failing call is
nonnegative. -/
theorem claim_C2_witness :
    sp.format_index sp.okStream [] 5 [sp.Arg.int 7] = (false, sp.okStream) ∧
    sp.step ("\x7b5\x7d".toList) [sp.Arg.int 7]
        { st := sp.FState.closer, next := 2, start := 0, formatStart := none,
          prev := 5, idx := 5, out := sp.okStream } =
      some { st := sp.FState.opener, next := 3, start := 0, formatStart := none,
             prev := 5, idx := 5, out := sp.okStream } ∧
    0 ≤ sp.runRet ("\x7b5\x7d".toList) [sp.Arg.int 7] := by
  refine ⟨?_, ?_, ?_⟩
  · exact claim_C2_dispatch_failure_passthrough.1 sp.okStream [] 5 [sp.Arg.int 7] (by decide)
  · exact claim_C2_dispatch_failure_passthrough.2.1 ("\x7b5\x7d".toList) [sp.Arg.int 7]
      { st := sp.FState.closer, next := 2, start := 0, formatStart := none,
        prev := 5, idx := 5, out := sp.okStream } (by decide) rfl (by decide)
  · exact claim_C2_dispatch_failure_passthrough.2.2.1 ("\x7b5\x7d".toList) [sp.Arg.int 7]

/-- C3 (corrected) — counterexample: for a buffer-backed output of
capacity 0 the claim's terminator clause fails: after writing one byte
the reported length is 1 (the requested total) but no null terminator
exists at the cursor (the buffer has no cells at all; the source's
`if (m_size)` skips the terminator store), so the claim as stated over
every buffer-backed output is false. -/
theorem claim_C3_counterexample :
    ((sp.mkBuf 0).writeAll [['a']]).result = 1 ∧
    ¬ ((sp.mkBuf 0).writeAll [['a']]).buf.get?
        (((sp.mkBuf 0).writeAll [['a']]).pos) = some '\x00' := by
  decide

/-- C3 (corrected) — amended claim, proved: for a buffer-backed output
of capacity `c ≥ 1`, after any sequence of writes the reported result
equals the sum of all requested lengths (even when nothing fit), the
buffer never grows, at most `c - 1` content bytes are ever copied (the
cursor, which advances exactly by the number of copied bytes, never
exceeds `c - 1`), and after every write a null terminator sits at the
cursor. -/
theorem claim_C3_buffer_invariants (c : Nat) (hc : 1 ≤ c) (ds : List (List Char)) :
    ((sp.mkBuf c).writeAll ds).result = sp.sumLens ds ∧
    ((sp.mkBuf c).writeAll ds).buf.length = c ∧
    ((sp.mkBuf c).writeAll ds).pos ≤ c - 1 ∧
    (ds ≠ [] → ((sp.mkBuf c).writeAll ds).buf.get?
        (((sp.mkBuf c).writeAll ds).pos) = some '\x00') := by
  have hinv : sp.BufInv c (sp.mkBuf c) := by
    refine ⟨rfl, by simp [sp.mkBuf], by simp [sp.mkBuf], by simpa [sp.mkBuf] using hc,
      le_refl 0⟩
  obtain ⟨⟨-, hb, hpz, hsz, -⟩, hlen, hterm⟩ := sp.writeAll_bufInv c ds (sp.mkBuf c) hinv
  refine ⟨?_, hb, by omega, hterm⟩
  show ((sp.mkBuf c).writeAll ds).length = sp.sumLens ds
  rw [hlen]
  simp [sp.mkBuf]

/-- Witness for C3 at capacity 4 with two writes totalling 6 requested
bytes: result 6, buffer still 4 cells, at most 3 content bytes copied,
terminator at the cursor. -/
theorem claim_C3_witness :
    ((sp.mkBuf 4).writeAll [['a', 'b'], ['c', 'd', 'e', 'f']]).result =
      sp.sumLens [['a', 'b'], ['c', 'd', 'e', 'f']] ∧
    ((sp.mkBuf 4).writeAll [['a', 'b'], ['c', 'd', 'e', 'f']]).buf.length = 4 ∧
    ((sp.mkBuf 4).writeAll [['a', 'b'], ['c', 'd', 'e', 'f']]).pos ≤ 3 ∧
    ((sp.mkBuf 4).writeAll [['a', 'b'], ['c', 'd', 'e', 'f']]).buf.get?
        (((sp.mkBuf 4).writeAll [['a', 'b'], ['c', 'd', 'e', 'f']]).pos) = some '\x00' := by
  obtain ⟨h1, h2, h3, h4⟩ :=
    claim_C3_buffer_invariants 4 (by decide) [['a', 'b'], ['c', 'd', 'e', 'f']]
  exact ⟨h1, h2, h3, h4 (by decide)⟩

/-- C4 (confirmed): once an output's length state is `-1` (the sticky
error set by a failed stream write), any further sequence of writes
changes nothing at all — the state is literally unchanged, no byte is
emitted, and `result()` stays `-1` (`Output::write` is guarded by
`m_length >= 0`, sp.hpp:174). -/
theorem claim_C4_sticky_error (o : sp.Output) (ds : List (List Char))
    (h : o.length = -1) :
    o.writeAll ds = o ∧ (o.writeAll ds).result = -1 ∧
    (o.writeAll ds).emitted = o.emitted := by
  have h2 := sp.writeAll_of_neg o ds (by omega)
  refine ⟨h2, ?_, by rw [h2]⟩
  show (o.writeAll ds).length = -1
  rw [h2, h]

/-- Witness for C4: a stream output already in the error state absorbs
two more writes without any effect. -/
theorem claim_C4_witness :
    ({ sp.okStream with length := -1 } : sp.Output).writeAll [['a'], ['b', 'c']] =
      { sp.okStream with length := -1 } ∧
    (({ sp.okStream with length := -1 } : sp.Output).writeAll [['a'], ['b', 'c']]).result = -1 ∧
    (({ sp.okStream with length := -1 } : sp.Output).writeAll [['a'], ['b', 'c']]).emitted =
      ({ sp.okStream with length := -1 } : sp.Output).emitted :=
  claim_C4_sticky_error { sp.okStream with length := -1 } [['a'], ['b', 'c']] rfl

/-- C5 (confirmed): in `STATE_INDEX`, a placeholder with no digits
resolves to `prev + 1` and stores that back into `prev`; a placeholder
with an explicit index `n ≥ 0` stores `n` into `prev` (so the next
auto-placeholder gets `n + 1`) and changes nothing else; the counter
starts at `prev = -1`, making the first auto index 0, and lives in the
scanner state shared across the whole template.  End to end,
`format("\x7b\x7d \x7b\x7d \x7b1\x7d \x7b\x7d \x7b1\x7d", 0, 1, 2)` prints
`"0 1 1 2 1"` with result 9. -/
theorem claim_C5_auto_increment :
    (∀ (fmt : List Char) (args : List sp.Arg) (s : sp.MState) (ch : Char),
        fmt[s.next]? = some ch → s.st = sp.FState.index → sp.isDigitC ch = false →
        s.idx < 0 →
        sp.step fmt args s =
          some { s with idx := s.prev + 1, prev := s.prev + 1, st := sp.FState.marker }) ∧
    (∀ (fmt : List Char) (args : List sp.Arg) (s : sp.MState) (ch : Char),
        fmt[s.next]? = some ch → s.st = sp.FState.index → sp.isDigitC ch = false →
        0 ≤ s.idx →
        sp.step fmt args s =
          some { s with prev := s.idx, st := sp.FState.marker }) ∧
    (∀ o : sp.Output, (sp.initState o).prev = -1) ∧
    sp.runEmit ("\x7b\x7d \x7b\x7d \x7b1\x7d \x7b\x7d \x7b1\x7d".toList)
        [sp.Arg.int 0, sp.Arg.int 1, sp.Arg.int 2] = ("0 1 1 2 1".toList) ∧
    sp.runRet ("\x7b\x7d \x7b\x7d \x7b1\x7d \x7b\x7d \x7b1\x7d".toList)
        [sp.Arg.int 0, sp.Arg.int 1, sp.Arg.int 2] = 9 := by
  refine ⟨?_, ?_, fun o => rfl, by decide, by decide⟩
  · intro fmt args s ch h1 h2 h3 h4
    obtain ⟨st, nx0, st0, fs0, pv0, ix0, o1⟩ := s
    subst h2
    simp only [sp.step, h1, h3]
    simp [h4]
  · intro fmt args s ch h1 h2 h3 h4
    obtain ⟨st, nx0, st0, fs0, pv0, ix0, o1⟩ := s
    subst h2
    simp only [sp.step, h1, h3]
    simp at h4
    simp [if_neg (by omega : ¬ ix0 < 0)]

/-- Witness for C5: at the closing brace of a digit-less placeholder
with `prev = -1` the index resolves to 0; with an explicit index 7 the
counter is set to 7. -/
theorem claim_C5_witness :
    sp.step ("\x7b\x7d".toList) []
        { st := sp.FState.index, next := 1, start := 0, formatStart := none,
          prev := -1, idx := -1, out := sp.okStream } =
      some { st := sp.FState.marker, next := 1, start := 0, formatStart := none,
             prev := 0, idx := 0, out := sp.okStream } ∧
    sp.step ("\x7b7\x7d".toList) []
        { st := sp.FState.index, next := 2, start := 0, formatStart := none,
          prev := -1, idx := 7, out := sp.okStream } =
      some { st := sp.FState.marker, next := 2, start := 0, formatStart := none,
             prev := 7, idx := 7, out := sp.okStream } := by
  constructor
  · have h := claim_C5_auto_increment.1 ("\x7b\x7d".toList) []
      { st := sp.FState.index, next := 1, start := 0, formatStart := none,
        prev := -1, idx := -1, out := sp.okStream } '\x7d' (by decide) rfl (by decide)
      (by decide)
    exact h
  · have h := claim_C5_auto_increment.2.1 ("\x7b7\x7d".toList) []
      { st := sp.FState.index, next := 2, start := 0, formatStart := none,
        prev := -1, idx := 7, out := sp.okStream } '\x7d' (by decide) rfl (by decide)
      (by decide)
    exact h

/-- C6 (code bug): the first half of the claim holds — with sign-aware
zero alignment (`=`) the sign is written before the leading padding, so
`format("\x7b:=+5\x7d", 52)` prints `"+  52"` — but the claimed example
`format("\x7b:#08x\x7d", 1) = "0x000001"` (also the repository's test,
tests/main.cpp:260) fails: in sp.hpp the alternate-form prefix is part
of the digit buffer written after the leading padding (sp.hpp:381-399,
444-454), so the code prints `"000000x1"`, with the `0x` inside the
zero padding instead of before it. -/
theorem claim_C6_prefix_written_after_padding :
    sp.runEmit ("\x7b:=+5\x7d".toList) [sp.Arg.int 52] = ("+  52".toList) ∧
    sp.runEmit ("\x7b:#08x\x7d".toList) [sp.Arg.int 1] = ("000000x1".toList) := by
  decide

/-- C7 (code bug): `parse_format`'s `STATE_WIDTH` (sp.hpp:284-298) sets
`fill = '0'`, `align = '='` on a leading width digit `0`
unconditionally — even when an explicit fill or align was parsed in the
align stage — contradicting the claim (and the repository's test
tests/main.cpp:262, which expects `format("\x7b:<#08x\x7d", 1) =
"0x100000"`).  Parsing `"<#08x"` yields `align = '='` although `<` was
explicit, and the call prints `"000000x1"`. -/
theorem claim_C7_zero_width_overrides_explicit_align :
    sp.parse_format ("<#08x".toList) =
      some { fill := '0', align := '=', sign := '\x00', alternate := true,
             width := 8, precision := -1, type := 'x' } ∧
    sp.runEmit ("\x7b:<#08x\x7d".toList) [sp.Arg.int 1] = ("000000x1".toList) := by
  decide

/-- C8 (code bug): the claim (and the repository's tests,
tests/main.cpp:183-207) places `c` in the accepted type set and demands
display-character rendering with a parenthesized fallback, but
sp.hpp's `STATE_TYPE` (sp.hpp:311-333) does not accept `c`, so the spec
`"c"` fails to parse (trailing-garbage rule) and `format("\x7b:c\x7d", 65)`
passes the placeholder through verbatim instead of printing `"A"`.
(The other generation, printf.hpp:154-158, accepts `c` but forwards to
a `char32_t` renderer stub that always returns `false` — same
pass-through outcome.) -/
theorem claim_C8_type_c_rejected :
    sp.parse_format ("c".toList) = none ∧
    sp.runEmit ("\x7b:c\x7d".toList) [sp.Arg.int 65] = ("\x7b:c\x7d".toList) := by
  decide

/-- C9 (code bug): formatting four single-digit integers into a 4-byte
buffer does return length 4, but the buffer does not hold the four
digit characters: the fourth write finds `m_size == 1`, copies
`min(m_size - 1, 1) = 0` bytes and stores the null terminator at the
cursor (sp.hpp:186-191), so the buffer ends as `'1','2','3','\x00'` —
the repository's test (tests/main.cpp:349-357) instead requires all
four bytes `'1','2','3','4'` with no terminator. -/
theorem claim_C9_four_byte_buffer :
    (sp.format (sp.mkBuf 4) ("\x7b\x7d\x7b\x7d\x7b\x7d\x7b\x7d".toList)
        [sp.Arg.int 1, sp.Arg.int 2, sp.Arg.int 3, sp.Arg.int 4]).2 = 4 ∧
    (sp.format (sp.mkBuf 4) ("\x7b\x7d\x7b\x7d\x7b\x7d\x7b\x7d".toList)
        [sp.Arg.int 1, sp.Arg.int 2, sp.Arg.int 3, sp.Arg.int 4]).1.buf =
      ['1', '2', '3', '\x00'] := by
  decide

/-- C10 (confirmed): `format` returns `result()`-after minus
`result()`-before — the characters contributed by this call alone —
and returns the negative `result()` value unchanged whenever the error
state is set (whether it was set before the call or arises from a
failed stream write during it).  Concretely: (1) for every output,
stream- or buffer-backed, healthy or failing, the returned value is
`after - before` when the final `result()` is nonnegative and the final
negative `result()` itself otherwise; (2) an output already in the
error state is returned untouched together with its negative
`result()`; (3) for every output whose writes succeed — buffer-backed
with any prior content, or a stream whose `fwrite` always succeeds,
with any prior output — the call adds a contribution `c ≥ 0` that
depends only on the template and the arguments: `result()` grows by
exactly `c` and the call returns `c`, never the sink's cumulative
total. -/
theorem claim_C10_result_is_call_delta (fmt : List Char) (args : List sp.Arg) :
    (∀ o : sp.Output,
        (sp.format o fmt args).2 =
          if (sp.format o fmt args).1.result < 0 then (sp.format o fmt args).1.result
          else (sp.format o fmt args).1.result - o.result) ∧
    (∀ o : sp.Output, o.length < 0 → sp.format o fmt args = (o, o.result)) ∧
    (∃ c : Int, 0 ≤ c ∧ ∀ o : sp.Output,
        (o.isStream = false ∨ o.fw = sp.okFw) → 0 ≤ o.length →
        (sp.format o fmt args).1.result = o.result + c ∧
        (sp.format o fmt args).2 = c) := by
  obtain ⟨D, hD⟩ := sp.format_script fmt args
  refine ⟨?_, ?_, ?_⟩
  · intro o
    rw [hD o]
    simp [sp.Output.result]
  · intro o ho
    rw [hD o, sp.writeAll_of_neg o D ho]
    simp [sp.Output.result, if_pos ho]
  · refine ⟨sp.sumLens D, sp.sumLens_nonneg D, fun o hback hl => ?_⟩
    have hlen : (o.writeAll D).length = o.length + sp.sumLens D := by
      by_cases hs : o.isStream = false
      · exact (sp.writeAll_nonstream D o hs hl).2
      · rcases hback with hb | hb
        · exact absurd hb hs
        · exact (sp.writeAll_okStream D o
            ⟨Bool.not_eq_false o.isStream |>.mp hs, hb, hl⟩).2
    have hnn : ¬ (o.writeAll D).length < 0 := by
      have := sp.sumLens_nonneg D
      omega
    rw [hD o]
    constructor
    · show (o.writeAll D).length = o.result + sp.sumLens D
      rw [hlen]
      rfl
    · show (if (o.writeAll D).length < 0 then (o.writeAll D).length
            else (o.writeAll D).length - o.length) = sp.sumLens D
      rw [if_neg hnn, hlen]
      ring

/-- Witness for C10: a healthy stream output that already holds two
characters of prior output gets the after-minus-before return (and the
same per-call contribution as a buffer output of capacity 2); a stream
whose `fwrite` oracle fails mid-call returns its final negative
`result()` unchanged; an output already in the error state is returned
untouched with its `-1`. -/
theorem claim_C10_witness :
    (sp.format { sp.okStream with emitted := ("xy".toList), length := 2, calls := 3 }
        ("\x7b\x7d".toList) [sp.Arg.int 7]).2 =
      (sp.format { sp.okStream with emitted := ("xy".toList), length := 2, calls := 3 }
        ("\x7b\x7d".toList) [sp.Arg.int 7]).1.result - 2 ∧
    (sp.format ({ sp.okStream with fw := fun _ _ => 0 } : sp.Output)
        ("\x7b\x7d".toList) [sp.Arg.int 7]).2 =
      (sp.format ({ sp.okStream with fw := fun _ _ => 0 } : sp.Output)
        ("\x7b\x7d".toList) [sp.Arg.int 7]).1.result ∧
    sp.format { sp.okStream with length := -1 } ("\x7b\x7d".toList) [sp.Arg.int 7] =
      ({ sp.okStream with length := -1 }, -1) ∧
    (sp.format (sp.mkBuf 2) ("\x7b\x7d".toList) [sp.Arg.int 7]).2 =
      (sp.format { sp.okStream with emitted := ("xy".toList), length := 2, calls := 3 }
        ("\x7b\x7d".toList) [sp.Arg.int 7]).2 := by
  refine ⟨?_, ?_, ?_, ?_⟩
  · obtain ⟨h1, h2⟩ :=
      ((claim_C10_result_is_call_delta ("\x7b\x7d".toList) [sp.Arg.int 7]).2.2.choose_spec.2
        { sp.okStream with emitted := ("xy".toList), length := 2, calls := 3 }
        (Or.inr rfl) (by decide))
    have hres : ({ sp.okStream with emitted := ("xy".toList), length := 2, calls := 3 }
        : sp.Output).result = 2 := rfl
    rw [h2, h1, hres]
    ring
  · have h := (claim_C10_result_is_call_delta ("\x7b\x7d".toList) [sp.Arg.int 7]).1
      ({ sp.okStream with fw := fun _ _ => 0 } : sp.Output)
    rw [h, if_pos (by decide :
      (sp.format ({ sp.okStream with fw := fun _ _ => 0 } : sp.Output)
        ("\x7b\x7d".toList) [sp.Arg.int 7]).1.result < 0)]
  · exact (claim_C10_result_is_call_delta ("\x7b\x7d".toList) [sp.Arg.int 7]).2.1
      { sp.okStream with length := -1 } (by decide)
  · obtain ⟨c, -, hc⟩ := (claim_C10_result_is_call_delta ("\x7b\x7d".toList) [sp.Arg.int 7]).2.2
    rw [(hc (sp.mkBuf 2) (Or.inl rfl) (by decide)).2,
      (hc { sp.okStream with emitted := ("xy".toList), length := 2, calls := 3 }
        (Or.inr rfl) (by decide)).2]
